import Mathlib

/-!
# Verification of the gatenlp serialization layer

A shallow embedding of `gatenlp/serialization/default.py`: the msgpack-based
binary document codec (`MsgPackSerializer.document2stream` /
`MsgPackSerializer.stream2document`), the format registry and dispatch
(`get_handler`, `determine_loader`, the `DOCUMENT_SAVERS` / `DOCUMENT_LOADERS` /
`EXTENSIONS` tables), the in-memory JSON saver (`JsonSerializer.save`), and the
HTML markup-to-annotation reconstruction walk (`HtmlLoader.load`).

Python machine-level collaborators (msgpack packing itself, gzip, json.dumps,
the filesystem) are modelled as either an explicit primitive-value list or as
function parameters; dicts are modelled as insertion-ordered association lists
with Python dict assignment semantics (assigning to an existing key replaces the
value in place, a fresh key is appended).
-/

namespace GatenlpSer

/-- A scalar feature value.  The codec packs and unpacks whole feature maps as
single opaque values and never inspects their contents, so feature values are
modelled by representative scalars. -/
inductive FVal where
  | fstr (s : String)
  | fint (n : Int)
  | fbool (b : Bool)
  | fnil
deriving DecidableEq, Repr

/-- A primitive value of the msgpack stream ("Primitive Value Stream" of the
spec): strings, integers, nil and string-keyed maps.  The Python `pack`
function serializes one such value; `Unpacker.unpack` reads one back.  The
stream itself is a `List Val`. -/
inductive Val where
  | vstr (s : String)
  | vint (n : Int)
  | vnil
  | vmap (entries : List (String × FVal))
deriving DecidableEq, Repr

/-- The version header written first by `MsgPackSerializer.document2stream`
(`MSGPACK_VERSION_HDR = "sm1"` in the source). -/
def MSGPACK_VERSION_HDR : String := "sm1"

/-- One annotation as the codec sees it: the five fields packed per annotation
(`ann.type`, `ann.start`, `ann.end`, `ann.id`, `ann.features`).  The codec
reads them back with no type validation (`u.unpack()` straight into the
`Annotation` constructor), so the fields are kept as raw primitive values. -/
structure Ann where
  atype : Val
  astart : Val
  aend : Val
  aid : Val
  afeatures : Val
deriving DecidableEq, Repr

/-- An annotation set as the codec sees it: the `next_annid` counter and the
id-keyed `_annotations` dict (insertion-ordered association list, Python dict
semantics).  The set's name is held by the owning document's set mapping. -/
structure AnnotationSet where
  next_annid : Val
  annotations : List (Val × Ann)
deriving DecidableEq, Repr

/-- A document as the codec sees it: `offset_type`, `_text`, `_features`
(packed and unpacked as raw primitive values, unvalidated by the codec) and
the name-keyed mapping of annotation sets. -/
structure Document where
  offset_type : Val
  text : Val
  features : Val
  annotation_sets : List (String × AnnotationSet)
deriving DecidableEq, Repr

/-- Python dict assignment `d[k] = v` on an insertion-ordered dict: if the key
is present its value is replaced in place, otherwise the pair is appended. -/
def dictInsert {κ β : Type} [DecidableEq κ] (d : List (κ × β)) (k : κ) (v : β) :
    List (κ × β) :=
  if d.any (fun p => p.1 = k) then
    d.map (fun p => if p.1 = k then (k, v) else p)
  else
    d ++ [(k, v)]

/-- The five values packed for one annotation, in the order of
`document2stream`: type, start, end, id, features. -/
def packAnn (a : Ann) : List Val :=
  [a.atype, a.astart, a.aend, a.aid, a.afeatures]

/-- `annset.fast_iter()`: the annotations of a set in dict iteration order. -/
def fast_iter (s : AnnotationSet) : List Ann :=
  s.annotations.map (fun p => p.2)

/-- The values packed for one annotation set in `document2stream`: name,
`next_annid`, annotation count, then each annotation's five fields. -/
def packSet (name : String) (s : AnnotationSet) : List Val :=
  Val.vstr name :: s.next_annid :: Val.vint (s.annotations.length) ::
    ((fast_iter s).map packAnn).flatten

/-- `MsgPackSerializer.document2stream`: the exact value order written — the
version header, offset type, text, document features, set count, then each
set in document iteration order. -/
def document2stream (doc : Document) : List Val :=
  Val.vstr MSGPACK_VERSION_HDR :: doc.offset_type :: doc.text :: doc.features ::
    Val.vint (doc.annotation_sets.length) ::
    (doc.annotation_sets.map (fun p => packSet p.1 p.2)).flatten

/-- Decoder failure modes: `corruptStream` (the unpacker exhausts the stream
mid-read), `wrongVersion` (the "MsgPack data starts with wrong version"
exception), `typeError` (a value of a type the surrounding Python code cannot
consume, e.g. a non-integer where `range(...)` needs an int). -/
inductive DecodeError where
  | corruptStream
  | wrongVersion
  | typeError
deriving DecidableEq, Repr

/-- The inner annotation loop of `stream2document`: read `n` annotations of
five values each and store them into the set's id-keyed dict with Python dict
assignment (`annset._annotations[aid] = ann`).  Returns the dict and the
unconsumed tail. -/
def readAnns : Nat → List (Val × Ann) → List Val →
    Except DecodeError (List (Val × Ann) × List Val)
  | 0, acc, s => .ok (acc, s)
  | n + 1, acc, s =>
    match s with
    | atype :: astart :: aend :: aid :: afeat :: rest =>
      readAnns n (dictInsert acc aid ⟨atype, astart, aend, aid, afeat⟩) rest
    | _ => .error .corruptStream

/-- The set loop of `stream2document`: read `n` sets — name (a `None` name is
normalized to the empty string), `next_annid`, annotation count, then the
annotations — and store each set into the document's name-keyed dict
(`setsdict[sname] = annset`). -/
def readSets : Nat → List (String × AnnotationSet) → List Val →
    Except DecodeError (List (String × AnnotationSet) × List Val)
  | 0, acc, s => .ok (acc, s)
  | n + 1, acc, s =>
    match s with
    | [] => .error .corruptStream
    | snameV :: rest =>
      match (match snameV with
             | Val.vstr t => some t
             | Val.vnil => some ""
             | _ => none) with
      | none => .error .typeError
      | some sname =>
        match rest with
        | [] => .error .corruptStream
        | nextid :: rest2 =>
          match rest2 with
          | [] => .error .corruptStream
          | Val.vint nanns :: rest3 =>
            match readAnns nanns.toNat [] rest3 with
            | .error e => .error e
            | .ok (anns, rest4) =>
              readSets n (dictInsert acc sname ⟨nextid, anns⟩) rest4
          | _ :: _ => .error .typeError

/-- `MsgPackSerializer.stream2document`: check the version value against
`"sm1"` (raising the wrong-version error on any mismatch), then read offset
type, text and features unvalidated, the set count, and the sets.  Any values
left after the last set are ignored, as in the source. -/
def stream2document (stream : List Val) : Except DecodeError Document :=
  match stream with
  | [] => .error .corruptStream
  | version :: rest =>
    if version ≠ Val.vstr MSGPACK_VERSION_HDR then .error .wrongVersion
    else
      match rest with
      | offset_type :: text :: features :: rest2 =>
        match rest2 with
        | [] => .error .corruptStream
        | Val.vint nsets :: rest3 =>
          match readSets nsets.toNat [] rest3 with
          | .error e => .error e
          | .ok (sets, _) => .ok ⟨offset_type, text, features, sets⟩
        | _ :: _ => .error .typeError
      | _ => .error .corruptStream

/-- The handler functions of the registry, as named constants standing for
the static methods bound in the tables. -/
inductive Handler where
  | jsonSave
  | jsonSaveGzip
  | yamlSave
  | yamlSaveGzip
  | msgpackSave
  | htmlAnnViewerSave
  | jsonLoad
  | jsonLoadGzip
  | yamlLoad
  | yamlLoadGzip
  | msgpackLoad
  | determineLoader
  | htmlLoad
  | gatexmlLoad
deriving DecidableEq, Repr

/-- `DOCUMENT_SAVERS` exactly as in the source, including the
`"text/bdocym+gzip+"` key (note the trailing `+`) bound to the plain,
non-gzip YAML saver. -/
def DOCUMENT_SAVERS : List (String × Handler) :=
  [("json", .jsonSave), ("jsongz", .jsonSaveGzip), ("yaml", .yamlSave),
   ("text/bdocym", .yamlSave), ("text/bdocym+gzip+", .yamlSave),
   ("text/bdocjs", .jsonSave), ("text/bdocjs+gzip", .jsonSaveGzip),
   ("msgpack", .msgpackSave), ("application/msgpack", .msgpackSave),
   ("html-ann-viewer", .htmlAnnViewerSave)]

/-- `DOCUMENT_LOADERS` exactly as in the source. -/
def DOCUMENT_LOADERS : List (String × Handler) :=
  [("json", .jsonLoad), ("yaml", .yamlLoad), ("text/bdocym", .yamlLoad),
   ("text/bdocym+gzip", .yamlLoadGzip), ("jsongz", .jsonLoadGzip),
   ("yamlgz", .yamlLoadGzip), ("jsonormsgpack", .determineLoader),
   ("text/bdocjs", .jsonLoad), ("text/bdocjs+gzip", .jsonLoadGzip),
   ("msgpack", .msgpackLoad), ("application/msgpack", .msgpackLoad),
   ("text/html", .htmlLoad), ("html", .htmlLoad), ("gatexml", .gatexmlLoad)]

/-- `EXTENSIONS`: extension (without leading dot, compound for `.gz`) to
format token, exactly as in the source. -/
def EXTENSIONS : List (String × String) :=
  [("bdocjs", "json"), ("bdocym", "yaml"), ("bdocym.gz", "text/bdocym+gzip"),
   ("bdoc.gz", "text/bdocjs+gzip"), ("bdoc", "jsonormsgpack"),
   ("bdocjs.gz", "text/bdocjs+gzip"), ("bdocjson", "json"),
   ("bdocmp", "msgpack")]

/-- `dict.get` on an association list: the value at the first matching key,
or `none`. -/
def tableGet {β : Type} (tbl : List (String × β)) (k : String) : Option β :=
  (tbl.find? (fun p => p.1 = k)).map (fun p => p.2)

/-- `os.path.splitext` for a path without directory separators: split before
the last dot, provided some character before that dot is not itself a dot
(so a purely leading-dot name such as `".bashrc"` has no extension). -/
def splitext (p : String) : String × String :=
  let cs := p.toList
  let idxs := (List.range cs.length).filter
    (fun i => cs.getD i ' ' = '.' && (List.range i).any (fun j => cs.getD j ' ' ≠ '.'))
  match idxs.getLast? with
  | none => (p, "")
  | some i => (⟨cs.take i⟩, ⟨cs.drop i⟩)

/-- Dispatch-time failures.  `get_handler` raises plain exceptions whose
messages distinguish the three situations; the names follow the spec's
taxonomy. -/
inductive DispatchError where
  | unknownFormat
  | unresolvableExtension
  | ambiguousFormat
deriving DecidableEq, Repr

/-- The extension `get_handler` looks up for a path: the `os.path.splitext`
extension without its leading dot, with a `.gz` extension combined with the
preceding extension (`"doc.bdocjs.gz"` → `"bdocjs.gz"`). -/
def extOf (wf : String) : String :=
  let ne := splitext wf
  let ext := ne.2
  if ext = ".gz" then
    let ext2 := (splitext ne.1).2
    let ext2 := if ext2 ≠ "" then ext2.drop 1 else ext2
    ext2 ++ ext
  else if ext ≠ "" then ext.drop 1 else ext

/-- Python truthiness of an optional string (`None` and `""` are falsy). -/
def truthy : Option String → Bool
  | none => false
  | some s => s ≠ ""

/-- `get_handler(filespec, fmt, handlers, ...)`: an explicit format token is
looked up directly (absence is fatal); otherwise the filespec's extension is
resolved through `EXTENSIONS` and then the handler table; a falsy filespec
with no format is fatal. -/
def get_handler (filespec : Option String) (fmt : Option String)
    (handlers : List (String × Handler)) : Except DispatchError Handler :=
  if truthy fmt then
    match tableGet handlers (fmt.getD "") with
    | none => .error .unknownFormat
    | some h => .ok h
  else
    if truthy filespec then
      match tableGet EXTENSIONS (extOf (filespec.getD "")) with
      | none => .error .unresolvableExtension
      | some f =>
        match tableGet handlers f with
        | none => .error .unknownFormat
        | some h => .ok h
    else .error .ambiguousFormat

/-- `get_document_saver(filespec, fmt)`. -/
def get_document_saver (filespec fmt : Option String) : Except DispatchError Handler :=
  get_handler filespec fmt DOCUMENT_SAVERS

/-- `get_document_loader(filespec, fmt)`. -/
def get_document_loader (filespec fmt : Option String) : Except DispatchError Handler :=
  get_handler filespec fmt DOCUMENT_LOADERS

/-- Which loader `determine_loader` dispatches to. -/
inductive LoaderChoice where
  | json
  | msgpack
deriving DecidableEq, Repr

/-- `determine_loader`: sniff one character — `from_mem[0]` if the in-memory
source is truthy, otherwise `open(from_ext).read(1)` (`fs` maps file names to
contents) — and dispatch on whether it equals `"\x7b"`.  Returns the chosen
loader together with the `from_ext` / `from_mem` arguments passed through to
it unchanged (each loader re-reads the full source itself; the sniffed
character is not consumed).  `none` models the Python crash of opening a
`None` path when neither source is available. -/
def determine_loader (fs : String → String)
    (from_ext : Option String) (from_mem : Option String) :
    Option (LoaderChoice × Option String × Option String) :=
  let firstO : Option String :=
    match from_mem with
    | some s =>
      if s ≠ "" then some (s.take 1)
      else from_ext.map (fun p => (fs p).take 1)
    | none => from_ext.map (fun p => (fs p).take 1)
  match firstO with
  | none => none
  | some first =>
    if first = "\x7b" then some (.json, from_ext, from_mem)
    else some (.msgpack, from_ext, from_mem)

/-- The value returned by an in-memory save: the codec's text, or compressed
bytes (their representation `γ` kept abstract). -/
inductive SaveResult (γ : Type) where
  | str (s : String)
  | bytes (b : γ)
deriving DecidableEq, Repr

/-- `JsonSerializer.save` restricted to its in-memory branch (`to_mem` set):
`dumps` stands for the external `json.dumps(inst.to_dict(...))` collaborator
and `compressFn` for the external `gzip.compress` collaborator.  Mirrors the
source exactly: with `gzip=True` the compressed bytes are computed and
discarded and the function falls through, returning `None` (modelled as
`none`); with `gzip=False` the JSON string is returned. -/
def JsonSerializer_save_mem {δ γ : Type} (dumps : δ → String)
    (compressFn : String → γ) (inst : δ) (gzip : Bool) :
    Option (SaveResult γ) :=
  if gzip then
    let _ := compressFn (dumps inst)
    none
  else
    some (.str (dumps inst))

/-- A node of the parsed markup tree as `walktree` distinguishes them: a text
node (an `str` instance), an element (`bs4.element.Tag`) with tag name,
attribute mapping and ordered children, or any other node kind, which the
walker skips with a warning and does not descend into. -/
inductive HNode where
  | text (s : String)
  | tag (name : String) (attrs : List (String × String)) (children : List HNode)
  | other

/-- The block-level tag set `nlels` of `HtmlLoader.load`. -/
def nlels : List String :=
  ["pre", "br", "p", "div", "tr", "h1", "h2", "h3", "h4", "h5", "h6", "li",
   "address", "article", "aside", "blockquote", "del", "figure", "figcaption",
   "footer", "header", "hr", "ins", "main", "nav", "section", "summary",
   "input", "legend", "option", "textarea", "bdi", "bdo", "center", "code",
   "dfn", "menu", "dir", "caption"]

/-- One record appended to `docinfo["anninfos"]` during the walk: a start
event carrying id, start offset, tag name (the annotation type) and the
attribute mapping (the features), or an end event carrying id and end
offset. -/
inductive Event where
  | estart (id : Nat) (off : Nat) (tagname : String)
      (features : List (String × String))
  | eend (id : Nat) (off : Nat)
deriving DecidableEq, Repr

/-- The shared accumulator `docinfo` of `HtmlLoader.load`: the event list,
the running offset, the next element id and the text buffer. -/
structure DocInfo where
  anninfos : List Event
  curoffset : Nat
  curid : Nat
  text : String
deriving DecidableEq, Repr

/-- `text.endswith("\n")`: the buffer's last character is a newline.  (Stated
over the character list so that it evaluates by kernel reduction.) -/
def endswithNewline (s : String) : Bool :=
  match s.data.getLast? with
  | some c => c = '\n'
  | none => false

/-- The newline-normalization step of the walker, applied before opening an
element and again after its children: append one newline iff the buffer does
not already end in a newline and the tag is block-level (the source tests
only `text.endswith` and tag membership; buffer emptiness is not tested). -/
def nlFix (name : String) (d : DocInfo) : DocInfo :=
  if !(endswithNewline d.text) && nlels.contains name then
    { d with text := d.text ++ "\n", curoffset := d.curoffset + 1 }
  else d

mutual
/-- `walktree` of `HtmlLoader.load`: a text node appends its content to the
buffer; an element gets the newline fix, a start event at the current offset,
its children in order, the newline fix again and an end event; any other
node kind is skipped. -/
def walktree (el : HNode) (d : DocInfo) : DocInfo :=
  match el with
  | .text s =>
    { d with text := d.text ++ s, curoffset := d.curoffset + s.length }
  | .tag name attrs children =>
    let d1 := nlFix name d
    let thisid := d1.curid
    let d2 := { d1 with
      anninfos := d1.anninfos ++ [.estart thisid d1.curoffset name attrs],
      curid := d1.curid + 1 }
    let d3 := walkList children d2
    let d4 := nlFix name d3
    { d4 with anninfos := d4.anninfos ++ [.eend thisid d4.curoffset] }
  | .other => d

/-- The children loop `for child in el.children: walktree(child)`. -/
def walkList (els : List HNode) (d : DocInfo) : DocInfo :=
  match els with
  | [] => d
  | e :: rest => walkList rest (walktree e d)
end

mutual
/-- Number of element nodes in a tree. -/
def numTags : HNode → Nat
  | .text _ => 0
  | .other => 0
  | .tag _ _ cs => 1 + numTagsList cs

/-- Number of element nodes in a forest. -/
def numTagsList : List HNode → Nat
  | [] => 0
  | c :: cs => numTags c + numTagsList cs
end

/-- Is this a start event? -/
def isStart : Event → Bool
  | .estart _ _ _ _ => true
  | .eend _ _ => false

/-- Is this an end event? -/
def isEnd : Event → Bool
  | .estart _ _ _ _ => false
  | .eend _ _ => true

/-- The id carried by an event. -/
def evId : Event → Nat
  | .estart i _ _ _ => i
  | .eend i _ => i

/-- Ids of the start events, in list order. -/
def startIds (l : List Event) : List Nat := (l.filter isStart).map evId

/-- Ids of the end events, in list order. -/
def endIds (l : List Event) : List Nat := (l.filter isEnd).map evId

/-- Every end event is preceded by a start event with the same id: in every
prefix of the event list, the end ids are among the start ids.  (The event at
a prefix boundary is an end event, so its start lies strictly earlier.) -/
def StartsPrecedeEnds (l : List Event) : Prop :=
  ∀ n, ∀ i ∈ endIds (l.take n), i ∈ startIds (l.take n)

/-- The initial accumulator of `HtmlLoader.load`:
`docinfo = {"anninfos": [], "curoffset": 0, "curid": 0, "text": ""}`. -/
def initDocInfo : DocInfo := ⟨[], 0, 0, ""⟩

/-- The pairing check of `HtmlLoader.load` (`assert nstart == nend`): the
counts of start and end events agree. -/
def pairingOk (l : List Event) : Bool :=
  (l.filter isStart).length == (l.filter isEnd).length

/-- The shape of the event block contributed by one walk step that starts at
id counter `c0` and assigns `n` fresh ids: the start ids are exactly
`c0, c0+1, …, c0+n-1` in order (pre-order), the end ids are the same set in
some order, and every end event is preceded by its start event. -/
def WalkDelta (c0 n : Nat) (delta : List Event) : Prop :=
  startIds delta = List.range' c0 n ∧
  (endIds delta).Perm (List.range' c0 n) ∧
  StartsPrecedeEnds delta

end GatenlpSer

/-! ## Theorems -/

namespace GatenlpSer

/-- A fresh key appends to a Python-dict association list. -/
theorem dictInsert_fresh {κ β : Type} [DecidableEq κ] (d : List (κ × β)) (k : κ) (v : β)
    (h : k ∉ d.map Prod.fst) : dictInsert d k v = d ++ [(k, v)] := by
  have hfalse : d.any (fun p => decide (p.1 = k)) = false := by
    rw [List.any_eq_false]
    intro p hp
    simp only [decide_eq_true_eq]
    intro hk
    exact h (List.mem_map.mpr ⟨p, hp, hk⟩)
  simp [dictInsert, hfalse]

/-- Reading back the packed annotations of a set appends exactly those
annotations to the accumulator, leaving the rest of the stream untouched,
provided the dict keys are the annotation ids and are not already present. -/
theorem readAnns_packed (anns : List (Val × Ann)) (acc : List (Val × Ann)) (rest : List Val)
    (hkey : ∀ q ∈ anns, q.1 = q.2.aid)
    (hnodup : ((acc ++ anns).map Prod.fst).Nodup) :
    readAnns anns.length acc (((anns.map Prod.snd).map packAnn).flatten ++ rest) =
      .ok (acc ++ anns, rest) := by
  induction anns generalizing acc with
  | nil => simp [readAnns]
  | cons q tl ih =>
    obtain ⟨k, a⟩ := q
    have hk : k = a.aid := hkey (k, a) (List.mem_cons_self _ _)
    subst hk
    have hfresh : a.aid ∉ acc.map Prod.fst := by
      rw [List.map_append, List.nodup_append] at hnodup
      intro hmem
      exact hnodup.2.2 hmem (by simp)
    have hstep :
        readAnns (tl.length + 1) acc
          (a.atype :: a.astart :: a.aend :: a.aid :: a.afeatures ::
            (((tl.map Prod.snd).map packAnn).flatten ++ rest)) =
        readAnns tl.length (dictInsert acc a.aid a)
          (((tl.map Prod.snd).map packAnn).flatten ++ rest) := rfl
    simp only [List.map_cons, List.flatten_cons, packAnn, List.cons_append,
      List.append_assoc, List.length_cons, List.nil_append]
    rw [hstep, dictInsert_fresh acc a.aid a hfresh]
    have := ih (acc ++ [(a.aid, a)])
      (fun q hq => hkey q (List.mem_cons_of_mem _ hq))
      (by simpa [List.append_assoc] using hnodup)
    simpa [List.append_assoc] using this

/-- Reading back the packed sets of a document appends exactly those sets to
the accumulator, provided set names are not already present and each set's
annotation dict is well formed (keys are the ids, no duplicates). -/
theorem readSets_packed (sets : List (String × AnnotationSet))
    (acc : List (String × AnnotationSet)) (rest : List Val)
    (hids : ∀ p ∈ sets, (p.2.annotations.map Prod.fst).Nodup)
    (hkey : ∀ p ∈ sets, ∀ q ∈ p.2.annotations, q.1 = q.2.aid)
    (hnodup : ((acc ++ sets).map Prod.fst).Nodup) :
    readSets sets.length acc ((sets.map (fun p => packSet p.1 p.2)).flatten ++ rest) =
      .ok (acc ++ sets, rest) := by
  induction sets generalizing acc with
  | nil => simp [readSets]
  | cons p tl ih =>
    obtain ⟨name, st⟩ := p
    have hfresh : name ∉ acc.map Prod.fst := by
      rw [List.map_append, List.nodup_append] at hnodup
      intro hmem
      exact hnodup.2.2 hmem (by simp)
    have hanns := readAnns_packed st.annotations []
      ((tl.map (fun p => packSet p.1 p.2)).flatten ++ rest)
      (hkey (name, st) (List.mem_cons_self _ _))
      (by simpa using hids (name, st) (List.mem_cons_self _ _))
    have hstream :
        packSet name st ++ ((tl.map (fun p => packSet p.1 p.2)).flatten ++ rest) =
        Val.vstr name :: st.next_annid :: Val.vint (st.annotations.length) ::
          (((st.annotations.map Prod.snd).map packAnn).flatten ++
            ((tl.map (fun p => packSet p.1 p.2)).flatten ++ rest)) := rfl
    have hstep :
        readSets (tl.length + 1) acc
          (Val.vstr name :: st.next_annid :: Val.vint (st.annotations.length) ::
            (((st.annotations.map Prod.snd).map packAnn).flatten ++
              ((tl.map (fun p => packSet p.1 p.2)).flatten ++ rest))) =
        (match readAnns (Int.toNat (st.annotations.length)) []
            (((st.annotations.map Prod.snd).map packAnn).flatten ++
              ((tl.map (fun p => packSet p.1 p.2)).flatten ++ rest)) with
         | .error e => .error e
         | .ok (anns, rest4) =>
            readSets tl.length (dictInsert acc name ⟨st.next_annid, anns⟩) rest4) := rfl
    rw [List.nil_append] at hanns
    simp only [List.map_cons, List.flatten_cons, List.append_assoc, List.length_cons]
    rw [hstream, hstep, Int.toNat_natCast, hanns]
    show readSets tl.length (dictInsert acc name st)
      ((tl.map (fun p => packSet p.1 p.2)).flatten ++ rest) =
      Except.ok (acc ++ (name, st) :: tl, rest)
    rw [dictInsert_fresh acc name st hfresh]
    have := ih (acc ++ [(name, st)])
      (fun q hq => hids q (List.mem_cons_of_mem _ hq))
      (fun q hq => hkey q (List.mem_cons_of_mem _ hq))
      (by simpa [List.append_assoc] using hnodup)
    simpa [List.append_assoc] using this

/-- C1.  Round-trip: decoding the binary (msgpack) encoding of a document
reproduces the document exactly — its text, offset type, document features,
and every annotation set with its name, next-id counter and annotations —
under the dict well-formedness invariants of the in-memory model (set names
unique, annotation ids unique within a set and equal to the dict keys). -/
theorem msgpack_roundtrip (doc : Document)
    (hnames : (doc.annotation_sets.map Prod.fst).Nodup)
    (hids : ∀ p ∈ doc.annotation_sets, (p.2.annotations.map Prod.fst).Nodup)
    (hkey : ∀ p ∈ doc.annotation_sets, ∀ q ∈ p.2.annotations, q.1 = q.2.aid) :
    stream2document (document2stream doc) = .ok doc := by
  have hsets := readSets_packed doc.annotation_sets [] [] hids hkey (by simpa using hnames)
  rw [List.append_nil, List.nil_append] at hsets
  have hstep :
      stream2document (document2stream doc) =
      (match readSets (Int.toNat (doc.annotation_sets.length)) []
          ((doc.annotation_sets.map (fun p => packSet p.1 p.2)).flatten) with
       | .error e => .error e
       | .ok (sets, _) => .ok ⟨doc.offset_type, doc.text, doc.features, sets⟩) := rfl
  rw [hstep, Int.toNat_natCast, hsets]

/-- Witness for `msgpack_roundtrip` at a concrete two-set document. -/
theorem msgpack_roundtrip_witness :
    stream2document (document2stream
      ⟨Val.vstr "p", Val.vstr "hello", Val.vmap [("k", FVal.fint 3)],
       [("", ⟨Val.vint 2,
          [(Val.vint 0, ⟨Val.vstr "Tok", Val.vint 0, Val.vint 2, Val.vint 0, Val.vmap []⟩),
           (Val.vint 1, ⟨Val.vstr "Tok", Val.vint 3, Val.vint 5, Val.vint 1, Val.vmap []⟩)]⟩),
        ("s2", ⟨Val.vint 1,
          [(Val.vint 0, ⟨Val.vstr "X", Val.vint 1, Val.vint 1, Val.vint 0, Val.vnil⟩)]⟩)]⟩) =
    .ok ⟨Val.vstr "p", Val.vstr "hello", Val.vmap [("k", FVal.fint 3)],
       [("", ⟨Val.vint 2,
          [(Val.vint 0, ⟨Val.vstr "Tok", Val.vint 0, Val.vint 2, Val.vint 0, Val.vmap []⟩),
           (Val.vint 1, ⟨Val.vstr "Tok", Val.vint 3, Val.vint 5, Val.vint 1, Val.vmap []⟩)]⟩),
        ("s2", ⟨Val.vint 1,
          [(Val.vint 0, ⟨Val.vstr "X", Val.vint 1, Val.vint 1, Val.vint 0, Val.vnil⟩)]⟩)]⟩ :=
  msgpack_roundtrip _ (by decide) (by decide) (by decide)

/-- The annotation loop never raises the wrong-version error. -/
theorem readAnns_ne_wrongVersion (n : Nat) :
    ∀ acc s, readAnns n acc s ≠ .error .wrongVersion := by
  induction n with
  | zero => intro acc s; simp [readAnns]
  | succ n ih =>
    intro acc s
    unfold readAnns
    split
    · exact ih _ _
    · simp

/-- The set loop never raises the wrong-version error. -/
theorem readSets_ne_wrongVersion (n : Nat) :
    ∀ acc s, readSets n acc s ≠ .error .wrongVersion := by
  induction n with
  | zero => intro acc s h; exact Except.noConfusion h
  | succ n ih =>
    intro acc s
    have key : ∀ (sname : String) (nextid : Val) (m2 : Int) (rest3 : List Val),
        (match readAnns (Int.toNat m2) [] rest3 with
         | Except.error e =>
            (Except.error e : Except DecodeError (List (String × AnnotationSet) × List Val))
         | Except.ok (anns, rest4) =>
            readSets n (dictInsert acc sname ⟨nextid, anns⟩) rest4)
          ≠ Except.error DecodeError.wrongVersion := by
      intro sname nextid m2 rest3
      cases hra : readAnns (Int.toNat m2) [] rest3 with
      | error e =>
        cases e with
        | wrongVersion => exact absurd hra (readAnns_ne_wrongVersion _ _ _)
        | corruptStream => exact fun h => DecodeError.noConfusion (Except.error.inj h)
        | typeError => exact fun h => DecodeError.noConfusion (Except.error.inj h)
      | ok p =>
        obtain ⟨anns, rest4⟩ := p
        exact ih _ _
    rcases s with _ | ⟨v, rest⟩
    · exact fun h => DecodeError.noConfusion (Except.error.inj h)
    · rcases rest with _ | ⟨nextid, rest2⟩
      · rcases v with t | m | _ | es <;>
          exact fun h => DecodeError.noConfusion (Except.error.inj h)
      · rcases rest2 with _ | ⟨w, rest3⟩
        · rcases v with t | m | _ | es <;>
            exact fun h => DecodeError.noConfusion (Except.error.inj h)
        · rcases v with t | m | _ | es
          · rcases w with t2 | m2 | _ | es2
            · exact fun h => DecodeError.noConfusion (Except.error.inj h)
            · exact key t nextid m2 rest3
            · exact fun h => DecodeError.noConfusion (Except.error.inj h)
            · exact fun h => DecodeError.noConfusion (Except.error.inj h)
          · exact fun h => DecodeError.noConfusion (Except.error.inj h)
          · rcases w with t2 | m2 | _ | es2
            · exact fun h => DecodeError.noConfusion (Except.error.inj h)
            · exact key "" nextid m2 rest3
            · exact fun h => DecodeError.noConfusion (Except.error.inj h)
            · exact fun h => DecodeError.noConfusion (Except.error.inj h)
          · exact fun h => DecodeError.noConfusion (Except.error.inj h)

/-- C3.  Version guard: if the first value of the stream is anything other
than the string `"sm1"`, decoding raises the wrong-version error regardless
of the rest of the stream; if it is `"sm1"`, the wrong-version error is never
raised (decoding may still fail differently, but not with that error). -/
theorem version_guard :
    (∀ v rest, v ≠ Val.vstr MSGPACK_VERSION_HDR →
        stream2document (v :: rest) = .error .wrongVersion) ∧
    (∀ rest, stream2document (Val.vstr MSGPACK_VERSION_HDR :: rest) ≠
        .error .wrongVersion) := by
  constructor
  · intro v rest hv
    show (if v ≠ Val.vstr MSGPACK_VERSION_HDR
          then Except.error DecodeError.wrongVersion else _) = _
    rw [if_pos hv]
  · intro rest
    show (if Val.vstr MSGPACK_VERSION_HDR ≠ Val.vstr MSGPACK_VERSION_HDR
          then Except.error DecodeError.wrongVersion else _) ≠ _
    rw [if_neg (by simp)]
    rcases rest with _ | ⟨offset_type, rest⟩
    · exact fun h => DecodeError.noConfusion (Except.error.inj h)
    · rcases rest with _ | ⟨text, rest⟩
      · exact fun h => DecodeError.noConfusion (Except.error.inj h)
      · rcases rest with _ | ⟨features, rest2⟩
        · exact fun h => DecodeError.noConfusion (Except.error.inj h)
        · rcases rest2 with _ | ⟨w, rest3⟩
          · exact fun h => DecodeError.noConfusion (Except.error.inj h)
          · rcases w with t | m | _ | es
            · exact fun h => DecodeError.noConfusion (Except.error.inj h)
            · cases hrs : readSets (Int.toNat m) [] rest3 with
              | error e =>
                cases e with
                | wrongVersion => exact absurd hrs (readSets_ne_wrongVersion _ _ _)
                | corruptStream =>
                  intro h
                  have h2 : (match readSets (Int.toNat m) [] rest3 with
                      | Except.error e =>
                        (Except.error e : Except DecodeError Document)
                      | Except.ok (sets, _) =>
                        Except.ok ⟨offset_type, text, features, sets⟩) =
                      Except.error DecodeError.wrongVersion := h
                  rw [hrs] at h2
                  exact DecodeError.noConfusion (Except.error.inj h2)
                | typeError =>
                  intro h
                  have h2 : (match readSets (Int.toNat m) [] rest3 with
                      | Except.error e =>
                        (Except.error e : Except DecodeError Document)
                      | Except.ok (sets, _) =>
                        Except.ok ⟨offset_type, text, features, sets⟩) =
                      Except.error DecodeError.wrongVersion := h
                  rw [hrs] at h2
                  exact DecodeError.noConfusion (Except.error.inj h2)
              | ok p =>
                intro h
                have h2 : (match readSets (Int.toNat m) [] rest3 with
                    | Except.error e =>
                      (Except.error e : Except DecodeError Document)
                    | Except.ok (sets, _) =>
                      Except.ok ⟨offset_type, text, features, sets⟩) =
                    Except.error DecodeError.wrongVersion := h
                rw [hrs] at h2
                obtain ⟨sets, tail⟩ := p
                exact Except.noConfusion h2
            · exact fun h => DecodeError.noConfusion (Except.error.inj h)
            · exact fun h => DecodeError.noConfusion (Except.error.inj h)

/-- Witness for `version_guard`: a stream starting with the integer 0 is
rejected as wrong-version; a stream starting with `"sm1"` is not. -/
theorem version_guard_witness :
    stream2document [Val.vint 0] = .error .wrongVersion ∧
    stream2document [Val.vstr MSGPACK_VERSION_HDR] ≠ .error .wrongVersion :=
  ⟨version_guard.1 (Val.vint 0) [] (by decide), version_guard.2 []⟩

/-- C10.  When the stream contains one set whose declared annotation count is
2 and whose two annotations share an id, decoding succeeds and the later
annotation has silently replaced the earlier one: the decoded set holds a
single annotation (fewer than the count read from the stream). -/
theorem duplicate_id_replaces (a1 a2 : Ann) (h : a1.aid = a2.aid) :
    stream2document
      ([Val.vstr MSGPACK_VERSION_HDR, Val.vstr "p", Val.vstr "t", Val.vmap [],
        Val.vint 1, Val.vstr "s", Val.vint 7, Val.vint 2] ++
        packAnn a1 ++ packAnn a2) =
    .ok ⟨Val.vstr "p", Val.vstr "t", Val.vmap [],
      [("s", ⟨Val.vint 7, [(a2.aid, a2)]⟩)]⟩ := by
  obtain ⟨t1, s1, e1, i1, f1⟩ := a1
  obtain ⟨t2, s2, e2, i2, f2⟩ := a2
  have h2 : i1 = i2 := h
  subst h2
  simp [packAnn, stream2document, readSets, readAnns, dictInsert]

/-- Witness for `duplicate_id_replaces` at two concrete annotations with id 0:
only the second one survives decoding. -/
theorem duplicate_id_replaces_witness :
    stream2document
      ([Val.vstr MSGPACK_VERSION_HDR, Val.vstr "p", Val.vstr "t", Val.vmap [],
        Val.vint 1, Val.vstr "s", Val.vint 7, Val.vint 2] ++
        packAnn ⟨Val.vstr "A", Val.vint 0, Val.vint 1, Val.vint 0, Val.vnil⟩ ++
        packAnn ⟨Val.vstr "B", Val.vint 2, Val.vint 3, Val.vint 0, Val.vnil⟩) =
    .ok ⟨Val.vstr "p", Val.vstr "t", Val.vmap [],
      [("s", ⟨Val.vint 7,
        [(Val.vint 0, ⟨Val.vstr "B", Val.vint 2, Val.vint 3, Val.vint 0, Val.vnil⟩)]⟩)]⟩ :=
  duplicate_id_replaces
    ⟨Val.vstr "A", Val.vint 0, Val.vint 1, Val.vint 0, Val.vnil⟩
    ⟨Val.vstr "B", Val.vint 2, Val.vint 3, Val.vint 0, Val.vnil⟩ rfl

/-- C5.  Extension-based handler resolution with no explicit format:
`"doc.bdocjs.gz"` resolves to the JSON+gzip saver, `"doc.bdocmp"` to the
msgpack (binary-codec) saver, and any non-empty path whose computed extension
is absent from the extension table raises the unresolvable-extension error. -/
theorem get_handler_by_extension :
    get_document_saver (some "doc.bdocjs.gz") none = .ok .jsonSaveGzip ∧
    get_document_saver (some "doc.bdocmp") none = .ok .msgpackSave ∧
    (∀ p : String, p ≠ "" → tableGet EXTENSIONS (extOf p) = none →
      get_document_saver (some p) none = .error .unresolvableExtension) := by
  refine ⟨rfl, rfl, ?_⟩
  intro p hp hext
  have htr : truthy (some p) = true := by simp [truthy, hp]
  simp [get_document_saver, get_handler, truthy, htr, hext, hp]

/-- Witness for `get_handler_by_extension` at the unmapped extension
`"doc.xyz"`. -/
theorem get_handler_by_extension_witness :
    get_document_saver (some "doc.xyz") none = .error .unresolvableExtension :=
  get_handler_by_extension.2.2 "doc.xyz" (by decide) rfl

/-- C6.  The `.bdocym.gz` saver is broken: the extension table maps
`"bdocym.gz"` to the format token `"text/bdocym+gzip"`, but the saver table
has no entry under that key — only the misspelled `"text/bdocym+gzip+"`
(trailing `+`), and that entry is bound to the plain, non-gzip YAML saver.
So `get_document_saver` on a `.bdocym.gz` path raises instead of returning a
YAML+gzip saver, while the loader table does carry the correctly spelled
key bound to the YAML+gzip loader. -/
theorem bdocym_gz_saver_missing :
    tableGet EXTENSIONS "bdocym.gz" = some "text/bdocym+gzip" ∧
    tableGet DOCUMENT_SAVERS "text/bdocym+gzip" = none ∧
    tableGet DOCUMENT_SAVERS "text/bdocym+gzip+" = some .yamlSave ∧
    tableGet DOCUMENT_LOADERS "text/bdocym+gzip" = some .yamlLoadGzip ∧
    get_document_saver (some "doc.bdocym.gz") none = .error .unknownFormat :=
  ⟨rfl, rfl, rfl, rfl, rfl⟩

/-- C7.  The in-memory JSON save with gzip enabled returns `None`: the
compressed bytes are computed and then discarded (the source lacks a
`return`), whereas the non-gzip in-memory save does return the JSON
string.  `dumps` and `compressFn` are the external JSON and gzip
collaborators, universally quantified. -/
theorem json_save_mem_gzip_returns_none {δ γ : Type} (dumps : δ → String)
    (compressFn : String → γ) (inst : δ) :
    JsonSerializer_save_mem dumps compressFn inst true = none ∧
    JsonSerializer_save_mem dumps compressFn inst false =
      some (.str (dumps inst)) :=
  ⟨rfl, rfl⟩

/-- Sniffing a truthy in-memory source: the chosen loader depends on the
first character and the original arguments are passed through. -/
theorem determine_loader_mem (fs : String → String) (fe : Option String)
    (s : String) (hs : s ≠ "") :
    determine_loader fs fe (some s) =
      some ((if s.take 1 = "\x7b" then LoaderChoice.json else LoaderChoice.msgpack),
            fe, some s) := by
  by_cases hc : s.take 1 = "\x7b" <;> simp [determine_loader, hs, hc]

/-- Sniffing a file source: one character of the file contents decides the
loader and the original arguments are passed through. -/
theorem determine_loader_file (fs : String → String) (p : String) :
    determine_loader fs (some p) none =
      some ((if (fs p).take 1 = "\x7b" then LoaderChoice.json else LoaderChoice.msgpack),
            some p, none) := by
  by_cases hc : (fs p).take 1 = "\x7b" <;> simp [determine_loader, hc]

/-- C4.  `determine_loader` dispatch: a truthy in-memory source is sniffed at
its first character and the JSON loader is chosen iff that character is a
left brace, the binary loader otherwise; a file source has exactly one
character read and is dispatched the same way; in both cases the chosen
loader receives the original `from_ext` / `from_mem` arguments unchanged
(a file is re-read from the beginning; the sniffed character is not
consumed); and the decision depends on nothing beyond the first character. -/
theorem determine_loader_spec (fs : String → String) :
    (∀ (fe : Option String) (s : String), s ≠ "" →
      determine_loader fs fe (some s) =
        some ((if s.take 1 = "\x7b" then LoaderChoice.json else LoaderChoice.msgpack),
              fe, some s)) ∧
    (∀ p : String,
      determine_loader fs (some p) none =
        some ((if (fs p).take 1 = "\x7b" then LoaderChoice.json else LoaderChoice.msgpack),
              some p, none)) ∧
    (∀ s t : String, s ≠ "" → t ≠ "" → s.take 1 = t.take 1 →
      (determine_loader fs none (some s)).map Prod.fst =
        (determine_loader fs none (some t)).map Prod.fst) := by
  refine ⟨fun fe s hs => determine_loader_mem fs fe s hs,
          fun p => determine_loader_file fs p, ?_⟩
  intro s t hs ht hfirst
  rw [determine_loader_mem fs none s hs, determine_loader_mem fs none t ht, hfirst]
  rfl

/-- Witness for `determine_loader_spec`: a brace-initial buffer goes to the
JSON loader, and a file source is sniffed from the file contents. -/
theorem determine_loader_spec_witness :
    determine_loader (fun _ => "") none (some "\x7ba") =
      some (LoaderChoice.json, none, some "\x7ba") ∧
    determine_loader (fun _ => "xyz") (some "f") none =
      some (LoaderChoice.msgpack, some "f", none) := by
  constructor
  · exact ((determine_loader_spec (fun _ => "")).1 none "\x7ba" (by decide)).trans
      (by decide)
  · exact ((determine_loader_spec (fun _ => "xyz")).2.1 "f").trans (by decide)

/-- `startIds` distributes over append. -/
theorem startIds_append (a b : List Event) :
    startIds (a ++ b) = startIds a ++ startIds b := by
  simp [startIds, List.filter_append]

/-- `endIds` distributes over append. -/
theorem endIds_append (a b : List Event) :
    endIds (a ++ b) = endIds a ++ endIds b := by
  simp [endIds, List.filter_append]

/-- A leading start event contributes its id to `startIds`. -/
theorem startIds_cons_start (i off : Nat) (t : String)
    (f : List (String × String)) (l : List Event) :
    startIds (Event.estart i off t f :: l) = i :: startIds l := by
  simp [startIds, isStart, evId]

/-- A leading end event is invisible to `startIds`. -/
theorem startIds_cons_end (i off : Nat) (l : List Event) :
    startIds (Event.eend i off :: l) = startIds l := by
  simp [startIds, isStart]

/-- A leading start event is invisible to `endIds`. -/
theorem endIds_cons_start (i off : Nat) (t : String)
    (f : List (String × String)) (l : List Event) :
    endIds (Event.estart i off t f :: l) = endIds l := by
  simp [endIds, isEnd]

/-- A leading end event contributes its id to `endIds`. -/
theorem endIds_cons_end (i off : Nat) (l : List Event) :
    endIds (Event.eend i off :: l) = i :: endIds l := by
  simp [endIds, isEnd, evId]

/-- The empty event list satisfies the precedence discipline. -/
theorem SPE_nil : StartsPrecedeEnds [] := by
  intro n i hi
  simp [endIds] at hi

/-- Precedence is preserved by concatenating two self-contained blocks. -/
theorem SPE_append {a b : List Event} (ha : StartsPrecedeEnds a)
    (hb : StartsPrecedeEnds b) : StartsPrecedeEnds (a ++ b) := by
  intro n i hi
  rw [List.take_append_eq_append_take, endIds_append] at hi
  rw [List.take_append_eq_append_take, startIds_append]
  rcases List.mem_append.mp hi with h | h
  · exact List.mem_append.mpr (Or.inl (ha n i h))
  · exact List.mem_append.mpr (Or.inr (hb _ i h))

/-- Precedence is preserved by wrapping a block in a start/end pair for a
fresh id. -/
theorem SPE_wrap {m : List Event} (hm : StartsPrecedeEnds m)
    (c off offE : Nat) (t : String) (f : List (String × String)) :
    StartsPrecedeEnds (Event.estart c off t f :: (m ++ [Event.eend c offE])) := by
  intro n i hi
  cases n with
  | zero => simp [endIds] at hi
  | succ k =>
    rw [List.take_succ_cons, endIds_cons_start] at hi
    rw [List.take_succ_cons, startIds_cons_start]
    rw [List.take_append_eq_append_take, endIds_append] at hi
    rcases List.mem_append.mp hi with h | h
    · have := hm k i h
      rw [List.take_append_eq_append_take, startIds_append]
      exact List.mem_cons_of_mem _ (List.mem_append.mpr (Or.inl this))
    · cases hkm : k - m.length with
      | zero =>
        rw [hkm] at h
        simp [endIds] at h
      | succ j =>
        rw [hkm, List.take_succ_cons, List.take_nil, endIds_cons_end] at h
        have : i = c := by simpa [endIds] using h
        subst this
        exact List.mem_cons_self _ _

/-- An empty block assigns no ids. -/
theorem WalkDelta_nil (c0 : Nat) : WalkDelta c0 0 [] :=
  ⟨by simp [startIds], by simp [endIds], SPE_nil⟩

/-- Two consecutive blocks with consecutive id ranges compose. -/
theorem WalkDelta_append {c0 n1 n2 : Nat} {d1 d2 : List Event}
    (h1 : WalkDelta c0 n1 d1) (h2 : WalkDelta (c0 + n1) n2 d2) :
    WalkDelta c0 (n1 + n2) (d1 ++ d2) := by
  obtain ⟨hs1, hp1, he1⟩ := h1
  obtain ⟨hs2, hp2, he2⟩ := h2
  have hr : List.range' c0 n1 ++ List.range' (c0 + n1) n2 = List.range' c0 (n1 + n2) := by
    have := List.range'_append c0 n1 n2 1
    rw [Nat.one_mul, Nat.add_comm n2 n1] at this
    exact this
  refine ⟨?_, ?_, SPE_append he1 he2⟩
  · rw [startIds_append, hs1, hs2, hr]
  · rw [endIds_append]
    exact (hp1.append hp2).trans (hr ▸ List.Perm.refl _)

/-- A block for `n` ids wrapped in a start/end pair for the preceding id is a
block for `n + 1` ids. -/
theorem WalkDelta_wrap {c0 n : Nat} {m : List Event}
    (hm : WalkDelta (c0 + 1) n m) (off offE : Nat) (t : String)
    (f : List (String × String)) :
    WalkDelta c0 (n + 1) (Event.estart c0 off t f :: (m ++ [Event.eend c0 offE])) := by
  obtain ⟨hs, hp, he⟩ := hm
  have hr : List.range' c0 (n + 1) = c0 :: List.range' (c0 + 1) n := List.range'_succ c0 n 1
  refine ⟨?_, ?_, SPE_wrap he c0 off offE t f⟩
  · rw [startIds_cons_start, startIds_append, hs,
      show startIds [Event.eend c0 offE] = [] from rfl, List.append_nil, hr]
  · rw [endIds_cons_start, endIds_append,
      show endIds [Event.eend c0 offE] = [c0] from rfl, hr]
    exact (List.perm_append_singleton _ _).trans (hp.cons c0)

/-- `nlFix` changes only the buffer and offset. -/
theorem nlFix_anninfos (name : String) (d : DocInfo) :
    (nlFix name d).anninfos = d.anninfos := by
  unfold nlFix
  split <;> rfl

/-- `nlFix` does not touch the id counter. -/
theorem nlFix_curid (name : String) (d : DocInfo) :
    (nlFix name d).curid = d.curid := by
  unfold nlFix
  split <;> rfl

mutual
/-- The event block a single node contributes: everything the walk appends
after the existing events forms a `WalkDelta` block for the `numTags` fresh
ids assigned while visiting the node. -/
theorem walktree_delta (el : HNode) (d : DocInfo) :
    ∃ delta, (walktree el d).anninfos = d.anninfos ++ delta ∧
      (walktree el d).curid = d.curid + numTags el ∧
      WalkDelta d.curid (numTags el) delta := by
  cases el with
  | text s =>
    exact ⟨[], by simp [walktree], by simp [walktree, numTags], WalkDelta_nil _⟩
  | other =>
    exact ⟨[], by simp [walktree], by simp [walktree, numTags], WalkDelta_nil _⟩
  | tag name attrs children =>
    set d1 := nlFix name d with hd1
    set d2 : DocInfo := { d1 with
      anninfos := d1.anninfos ++ [Event.estart d1.curid d1.curoffset name attrs],
      curid := d1.curid + 1 } with hd2
    obtain ⟨deltaC, hannsC, hcuridC, hWDC⟩ := walkList_delta children d2
    set d3 := walkList children d2 with hd3
    set d4 := nlFix name d3 with hd4
    have hw : walktree (.tag name attrs children) d =
        { d4 with anninfos := d4.anninfos ++ [Event.eend d1.curid d4.curoffset] } := rfl
    have hC1 : d1.curid = d.curid := nlFix_curid name d
    have hA1 : d1.anninfos = d.anninfos := nlFix_anninfos name d
    have hA4 : d4.anninfos = d3.anninfos := nlFix_anninfos name d3
    have hC4 : d4.curid = d3.curid := nlFix_curid name d3
    refine ⟨Event.estart d.curid d1.curoffset name attrs ::
        (deltaC ++ [Event.eend d.curid d4.curoffset]), ?_, ?_, ?_⟩
    · rw [hw]
      show d4.anninfos ++ [Event.eend d1.curid d4.curoffset] = _
      rw [hA4, hannsC, hd2]
      show d1.anninfos ++ [Event.estart d1.curid d1.curoffset name attrs] ++ deltaC ++ _ = _
      rw [hA1, hC1]
      simp [List.append_assoc]
    · rw [hw]
      show d4.curid = d.curid + numTags (.tag name attrs children)
      rw [hC4, hcuridC, hd2]
      show d1.curid + 1 + numTagsList children = _
      rw [hC1, show numTags (HNode.tag name attrs children) = 1 + numTagsList children from rfl]
      omega
    · have hWDC' : WalkDelta (d.curid + 1) (numTagsList children) deltaC := by
        have : d2.curid = d.curid + 1 := by rw [hd2]; show d1.curid + 1 = _; rw [hC1]
        rwa [this] at hWDC
      have := WalkDelta_wrap hWDC' d1.curoffset d4.curoffset name attrs
      rwa [show numTags (HNode.tag name attrs children) = numTagsList children + 1 by
        rw [show numTags (HNode.tag name attrs children) = 1 + numTagsList children from rfl]
        omega]

/-- The event block a forest contributes. -/
theorem walkList_delta (els : List HNode) (d : DocInfo) :
    ∃ delta, (walkList els d).anninfos = d.anninfos ++ delta ∧
      (walkList els d).curid = d.curid + numTagsList els ∧
      WalkDelta d.curid (numTagsList els) delta := by
  cases els with
  | nil =>
    exact ⟨[], by simp [walkList], by simp [walkList, numTagsList], WalkDelta_nil _⟩
  | cons e rest =>
    obtain ⟨delta1, h1a, h1c, h1w⟩ := walktree_delta e d
    obtain ⟨delta2, h2a, h2c, h2w⟩ := walkList_delta rest (walktree e d)
    refine ⟨delta1 ++ delta2, ?_, ?_, ?_⟩
    · show (walkList rest (walktree e d)).anninfos = _
      rw [h2a, h1a, List.append_assoc]
    · show (walkList rest (walktree e d)).curid = _
      rw [h2c, h1c, show numTagsList (e :: rest) = numTags e + numTagsList rest from rfl,
        Nat.add_assoc]
    · have h2w' : WalkDelta (d.curid + numTags e) (numTagsList rest) delta2 := by
        rwa [h1c] at h2w
      have := WalkDelta_append h1w h2w'
      rwa [show numTags e + numTagsList rest = numTagsList (e :: rest) from rfl] at this
end

/-- C8.  For every markup tree, the walk emits exactly as many start events
as end events; every assigned element id occurs exactly once as a start id
and exactly once as an end id; and the pairing step's `assert nstart == nend`
check — which would flag a mismatch as a fatal invariant violation rather
than letting it pass silently — succeeds. -/
theorem pairing_invariant (el : HNode) :
    ((walktree el initDocInfo).anninfos.filter isStart).length =
      ((walktree el initDocInfo).anninfos.filter isEnd).length ∧
    (∀ i, i < (walktree el initDocInfo).curid →
      (startIds (walktree el initDocInfo).anninfos).count i = 1 ∧
      (endIds (walktree el initDocInfo).anninfos).count i = 1) ∧
    pairingOk (walktree el initDocInfo).anninfos = true := by
  obtain ⟨delta, hanns, hcurid, hstart, hperm, _⟩ := walktree_delta el initDocInfo
  have hanns' : (walktree el initDocInfo).anninfos = delta := by
    simpa [initDocInfo] using hanns
  have hcurid' : (walktree el initDocInfo).curid = numTags el := by
    simpa [initDocInfo] using hcurid
  have hstart' : startIds (walktree el initDocInfo).anninfos =
      List.range' 0 (numTags el) := by
    rw [hanns']
    simpa [initDocInfo] using hstart
  have hperm' : (endIds (walktree el initDocInfo).anninfos).Perm
      (List.range' 0 (numTags el)) := by
    rw [hanns']
    simpa [initDocInfo] using hperm
  have hlens : ((walktree el initDocInfo).anninfos.filter isStart).length =
      ((walktree el initDocInfo).anninfos.filter isEnd).length := by
    have h1 : ((walktree el initDocInfo).anninfos.filter isStart).length =
        numTags el := by
      have := congrArg List.length hstart'
      simpa [startIds, List.length_range'] using this
    have h2 : ((walktree el initDocInfo).anninfos.filter isEnd).length =
        numTags el := by
      have := hperm'.length_eq
      simpa [endIds, List.length_range'] using this
    rw [h1, h2]
  refine ⟨hlens, ?_, ?_⟩
  · intro i hi
    rw [hcurid'] at hi
    have hmem : i ∈ List.range' 0 (numTags el) := by
      rw [List.mem_range'_1]
      omega
    constructor
    · rw [hstart']
      exact List.count_eq_one_of_mem (List.nodup_range' _ _) hmem
    · rw [hperm'.count_eq]
      exact List.count_eq_one_of_mem (List.nodup_range' _ _) hmem
  · simp [pairingOk, hlens]

/-- Witness for `pairing_invariant`: in the walk of `<div>A</div>` the single
assigned id 0 occurs exactly once as a start and once as an end. -/
theorem pairing_invariant_witness :
    (startIds (walktree (HNode.tag "div" [] [HNode.text "A"])
        initDocInfo).anninfos).count 0 = 1 ∧
    (endIds (walktree (HNode.tag "div" [] [HNode.text "A"])
        initDocInfo).anninfos).count 0 = 1 :=
  (pairing_invariant (HNode.tag "div" [] [HNode.text "A"])).2.1 0 (by decide)

/-- C9.  Element ids are assigned consecutively from 0 in strictly increasing
pre-order (the start-event ids, in list order, are exactly
`0, 1, …, numTags-1`); every start event precedes its matching end event in
the event list; and consequently every end event's id occurs among the start
ids, so the `id2anninfo` lookup performed while processing end events never
encounters a missing id. -/
theorem preorder_ids (el : HNode) :
    startIds (walktree el initDocInfo).anninfos = List.range (numTags el) ∧
    StartsPrecedeEnds (walktree el initDocInfo).anninfos ∧
    (∀ i ∈ endIds (walktree el initDocInfo).anninfos,
      i ∈ startIds (walktree el initDocInfo).anninfos) := by
  obtain ⟨delta, hanns, _, hstart, hperm, hspe⟩ := walktree_delta el initDocInfo
  have hanns' : (walktree el initDocInfo).anninfos = delta := by
    simpa [initDocInfo] using hanns
  have hstart' : startIds (walktree el initDocInfo).anninfos =
      List.range' 0 (numTags el) := by
    rw [hanns']
    simpa [initDocInfo] using hstart
  refine ⟨by rw [hstart', List.range_eq_range'], by rw [hanns']; simpa [initDocInfo] using hspe, ?_⟩
  intro i hi
  rw [hanns'] at hi ⊢
  have hperm2 : (endIds delta).Perm (List.range' 0 (numTags el)) := by
    simpa [initDocInfo] using hperm
  have : i ∈ List.range' 0 (numTags el) := hperm2.mem_iff.mp hi
  rw [show startIds delta = List.range' 0 (numTags el) from by
    simpa [initDocInfo] using hstart]
  exact this

/-- Witness for `preorder_ids`: walking `<div><p/></div>` assigns start ids
`[0, 1]` and the end id 0 is among the start ids. -/
theorem preorder_ids_witness :
    startIds (walktree (HNode.tag "div" [] [HNode.tag "p" [] []])
        initDocInfo).anninfos = List.range 2 ∧
    (0 : Nat) ∈ startIds (walktree (HNode.tag "div" [] [HNode.tag "p" [] []])
        initDocInfo).anninfos :=
  ⟨(preorder_ids (HNode.tag "div" [] [HNode.tag "p" [] []])).1,
   (preorder_ids (HNode.tag "div" [] [HNode.tag "p" [] []])).2.2 0 (by decide)⟩

/-- C2 counterexample: walking `<p></p>` from the initial state, whose buffer
is empty, DOES prepend a newline — the produced text is `"\n"` and the start
event is recorded at offset 1 — refuting the claim that no newline is
prepended while the buffer is still empty. -/
theorem empty_buffer_gets_newline :
    initDocInfo.text = "" ∧
    (walktree (HNode.tag "p" [] []) initDocInfo).text = "\n" ∧
    (walktree (HNode.tag "p" [] []) initDocInfo).anninfos =
      [Event.estart 0 1 "p" [], Event.eend 0 1] :=
  ⟨rfl, rfl, rfl⟩

/-- C2 amended: when the converter visits an element node, the
newline-normalization step applied before opening the element (and again
after its children) appends one newline and advances the offset by 1 iff the
buffer does not already end in a newline and the tag is block-level —
regardless of whether the buffer is empty (an empty buffer does not end in a
newline, so a block element at the very start receives a newline).  The
element's start event is recorded immediately after that step, at the
possibly advanced offset. -/
theorem block_newline_guard (name : String) (attrs : List (String × String))
    (children : List HNode) (d : DocInfo) :
    (walktree (HNode.tag name attrs children) d).anninfos.take
        (d.anninfos.length + 1) =
      d.anninfos ++ [Event.estart d.curid (nlFix name d).curoffset name attrs] ∧
    ((nlFix name d).curoffset =
      if endswithNewline d.text = false ∧ nlels.contains name = true
      then d.curoffset + 1 else d.curoffset) ∧
    ((nlFix name d).text =
      if endswithNewline d.text = false ∧ nlels.contains name = true
      then d.text ++ "\n" else d.text) := by
  refine ⟨?_, ?_, ?_⟩
  · set d1 := nlFix name d with hd1
    set d2 : DocInfo := { d1 with
      anninfos := d1.anninfos ++ [Event.estart d1.curid d1.curoffset name attrs],
      curid := d1.curid + 1 } with hd2
    obtain ⟨deltaC, hannsC, _, _⟩ := walkList_delta children d2
    set d3 := walkList children d2 with hd3
    set d4 := nlFix name d3 with hd4
    have hw : walktree (.tag name attrs children) d =
        { d4 with anninfos := d4.anninfos ++ [Event.eend d1.curid d4.curoffset] } := rfl
    have hA1 : d1.anninfos = d.anninfos := nlFix_anninfos name d
    have hC1 : d1.curid = d.curid := nlFix_curid name d
    have hA4 : d4.anninfos = d3.anninfos := nlFix_anninfos name d3
    have hA2 : d2.anninfos =
        d.anninfos ++ [Event.estart d.curid d1.curoffset name attrs] := by
      rw [hd2]
      show d1.anninfos ++ [Event.estart d1.curid d1.curoffset name attrs] = _
      rw [hA1, hC1]
    have hlen : (d.anninfos ++
        [Event.estart d.curid d1.curoffset name attrs]).length =
        d.anninfos.length + 1 := by simp
    rw [hw]
    show (d4.anninfos ++ [Event.eend d1.curid d4.curoffset]).take
        (d.anninfos.length + 1) = _
    rw [hA4, hannsC, hA2, List.append_assoc, ← hlen, List.take_left]
  · cases h1 : endswithNewline d.text <;> by_cases h2 : name ∈ nlels <;>
      simp [nlFix, h1, h2]
  · cases h1 : endswithNewline d.text <;> by_cases h2 : name ∈ nlels <;>
      simp [nlFix, h1, h2]

end GatenlpSer
